import Mathlib

/-!
Verification development for the AI data-table-viewer repository.

The repository contains two near-duplicate implementations of a
detect-and-normalize pipeline for pasted text:
`src/production_data_viewer.tsx` (function `parseData`, the `columns`
memo, `correctDataWithGemini`, `handleAICorrection`) and
`src/data-table-viewer.html` (functions of the same names).

This file shallowly embeds those functions.  JavaScript host primitives
that the source calls (`JSON.parse`, `String.prototype.trim`,
`String.prototype.split`, regular-expression replacement) are modelled
explicitly below; everything else is translated line by line from the
source.  JavaScript objects are modelled as insertion-ordered
association lists (note: real JS additionally reorders integer-like
keys first; no theorem below depends on key order of such keys).
-/

/-- Model of a parsed JSON value (the result of `JSON.parse`).
Numbers keep their source lexeme (the source never does arithmetic on
cell values, so no information is lost). -/
inductive JsonValue where
  | null : JsonValue
  | bool (b : Bool) : JsonValue
  | num (lexeme : String) : JsonValue
  | str (s : String) : JsonValue
  | arr (elems : List JsonValue) : JsonValue
  | obj (fields : List (String × JsonValue)) : JsonValue
deriving Repr

mutual

/-- Decidable equality for `JsonValue` (written by hand because automatic
derivation does not handle the nested `List` occurrences). -/
def decEqJson : (a b : JsonValue) → Decidable (a = b)
  | .null, .null => .isTrue rfl
  | .bool x, .bool y =>
    match decEq x y with
    | .isTrue h => .isTrue (by rw [h])
    | .isFalse h => .isFalse (fun he => h (JsonValue.bool.inj he))
  | .num x, .num y =>
    match decEq x y with
    | .isTrue h => .isTrue (by rw [h])
    | .isFalse h => .isFalse (fun he => h (JsonValue.num.inj he))
  | .str x, .str y =>
    match decEq x y with
    | .isTrue h => .isTrue (by rw [h])
    | .isFalse h => .isFalse (fun he => h (JsonValue.str.inj he))
  | .arr xs, .arr ys =>
    match decEqJsonList xs ys with
    | .isTrue h => .isTrue (by rw [h])
    | .isFalse h => .isFalse (fun he => h (JsonValue.arr.inj he))
  | .obj xs, .obj ys =>
    match decEqJsonFields xs ys with
    | .isTrue h => .isTrue (by rw [h])
    | .isFalse h => .isFalse (fun he => h (JsonValue.obj.inj he))
  | .null, .bool _ => .isFalse (fun h => JsonValue.noConfusion h)
  | .null, .num _ => .isFalse (fun h => JsonValue.noConfusion h)
  | .null, .str _ => .isFalse (fun h => JsonValue.noConfusion h)
  | .null, .arr _ => .isFalse (fun h => JsonValue.noConfusion h)
  | .null, .obj _ => .isFalse (fun h => JsonValue.noConfusion h)
  | .bool _, .null => .isFalse (fun h => JsonValue.noConfusion h)
  | .bool _, .num _ => .isFalse (fun h => JsonValue.noConfusion h)
  | .bool _, .str _ => .isFalse (fun h => JsonValue.noConfusion h)
  | .bool _, .arr _ => .isFalse (fun h => JsonValue.noConfusion h)
  | .bool _, .obj _ => .isFalse (fun h => JsonValue.noConfusion h)
  | .num _, .null => .isFalse (fun h => JsonValue.noConfusion h)
  | .num _, .bool _ => .isFalse (fun h => JsonValue.noConfusion h)
  | .num _, .str _ => .isFalse (fun h => JsonValue.noConfusion h)
  | .num _, .arr _ => .isFalse (fun h => JsonValue.noConfusion h)
  | .num _, .obj _ => .isFalse (fun h => JsonValue.noConfusion h)
  | .str _, .null => .isFalse (fun h => JsonValue.noConfusion h)
  | .str _, .bool _ => .isFalse (fun h => JsonValue.noConfusion h)
  | .str _, .num _ => .isFalse (fun h => JsonValue.noConfusion h)
  | .str _, .arr _ => .isFalse (fun h => JsonValue.noConfusion h)
  | .str _, .obj _ => .isFalse (fun h => JsonValue.noConfusion h)
  | .arr _, .null => .isFalse (fun h => JsonValue.noConfusion h)
  | .arr _, .bool _ => .isFalse (fun h => JsonValue.noConfusion h)
  | .arr _, .num _ => .isFalse (fun h => JsonValue.noConfusion h)
  | .arr _, .str _ => .isFalse (fun h => JsonValue.noConfusion h)
  | .arr _, .obj _ => .isFalse (fun h => JsonValue.noConfusion h)
  | .obj _, .null => .isFalse (fun h => JsonValue.noConfusion h)
  | .obj _, .bool _ => .isFalse (fun h => JsonValue.noConfusion h)
  | .obj _, .num _ => .isFalse (fun h => JsonValue.noConfusion h)
  | .obj _, .str _ => .isFalse (fun h => JsonValue.noConfusion h)
  | .obj _, .arr _ => .isFalse (fun h => JsonValue.noConfusion h)

/-- Decidable equality for lists of `JsonValue`. -/
def decEqJsonList : (xs ys : List JsonValue) → Decidable (xs = ys)
  | [], [] => .isTrue rfl
  | [], _ :: _ => .isFalse (fun h => List.noConfusion h)
  | _ :: _, [] => .isFalse (fun h => List.noConfusion h)
  | x :: xs, y :: ys =>
    match decEqJson x y with
    | .isFalse h => .isFalse (fun he => h (List.cons.inj he).1)
    | .isTrue h1 =>
      match decEqJsonList xs ys with
      | .isTrue h2 => .isTrue (by rw [h1, h2])
      | .isFalse h => .isFalse (fun he => h (List.cons.inj he).2)

/-- Decidable equality for lists of object fields. -/
def decEqJsonFields : (xs ys : List (String × JsonValue)) → Decidable (xs = ys)
  | [], [] => .isTrue rfl
  | [], _ :: _ => .isFalse (fun h => List.noConfusion h)
  | _ :: _, [] => .isFalse (fun h => List.noConfusion h)
  | (k1, v1) :: xs, (k2, v2) :: ys =>
    match decEq k1 k2 with
    | .isFalse h =>
      .isFalse (fun he => h (congrArg Prod.fst (List.cons.inj he).1))
    | .isTrue hk =>
      match decEqJson v1 v2 with
      | .isFalse h =>
        .isFalse (fun he => h (congrArg Prod.snd (List.cons.inj he).1))
      | .isTrue hv =>
        match decEqJsonFields xs ys with
        | .isTrue ht => .isTrue (by rw [hk, hv, ht])
        | .isFalse h => .isFalse (fun he => h (List.cons.inj he).2)

end

instance : DecidableEq JsonValue := decEqJson

/-- JavaScript object-property assignment `o[k] = v`: overwrite in place
when the key exists, otherwise append (insertion order preserved). -/
def objInsert (fields : List (String × JsonValue)) (k : String) (v : JsonValue) :
    List (String × JsonValue) :=
  if (fields.map Prod.fst).contains k then
    fields.map (fun p => if p.1 = k then (k, v) else p)
  else
    fields ++ [(k, v)]

/-- JavaScript property read `o[k]` on an object. -/
def jsLookup (fields : List (String × JsonValue)) (k : String) : Option JsonValue :=
  (fields.find? (fun p => p.1 = k)).map Prod.snd

/-- Model of `Object.keys` on values produced by `JSON.parse`.
For objects: own keys in insertion order; for arrays and strings:
the element indices; for numbers and booleans: empty.  (`Object.keys`
on `null` throws in JS; the viewer only reaches this code with
objects, so the `null` case is modelled as the empty list.) -/
def jsKeys : JsonValue → List String
  | JsonValue.obj fields => fields.map Prod.fst
  | JsonValue.arr elems => (List.range elems.length).map (fun i => toString i)
  | JsonValue.str s => (List.range s.length).map (fun i => toString i)
  | _ => []

/-- Characters trimmed by `String.prototype.trim` (ASCII whitespace
plus the common Unicode space characters that matter here). -/
def isJsWs (c : Char) : Bool :=
  c = ' ' || c = '\t' || c = '\n' || c = '\r' ||
  c = Char.ofNat 0x0b || c = Char.ofNat 0x0c ||
  c = Char.ofNat 0xa0 || c = Char.ofNat 0xfeff ||
  c = Char.ofNat 0x2028 || c = Char.ofNat 0x2029

/-- Model of `String.prototype.trim` on character lists. -/
def jsTrimList (l : List Char) : List Char :=
  ((l.dropWhile isJsWs).reverse.dropWhile isJsWs).reverse

/-- Model of `String.prototype.trim`. -/
def jsTrim (s : String) : String := ⟨jsTrimList s.data⟩

/-- Model of `String.prototype.split(sep)` for a single-character
separator: splits at every occurrence, keeping empty pieces. -/
def splitCharAux (sep : Char) : List Char → List Char → List (List Char)
  | acc, [] => [acc.reverse]
  | acc, c :: cs =>
    if c = sep then acc.reverse :: splitCharAux sep [] cs
    else splitCharAux sep (c :: acc) cs

/-- Model of `s.split(sep)` for a one-character separator string. -/
def splitChar (sep : Char) (s : String) : List String :=
  (splitCharAux sep [] s.data).map (fun l => ⟨l⟩)

/-- Model of `(line.match(new RegExp('\\' + d, 'g')) || []).length` for a
single-character delimiter: the number of occurrences of that character. -/
def countChar (c : Char) (s : String) : Nat := s.data.count c

/-- Case-insensitive prefix test used by the sanitizer model (the source
regex carries the `i` flag). -/
def startsWithCI : List Char → List Char → Bool
  | [], _ => true
  | _ :: _, [] => false
  | p :: ps, c :: cs => (c.toLower = p.toLower) && startsWithCI ps cs

/-- Characters matched by the regex class `\w` (ASCII letters to model
the word boundary after `script`). -/
def isWordChar (c : Char) : Bool := c.isAlpha || c.isDigit || c = '_'

/-- The opening tag prefix matched by `<script\b` in `sanitizeInput`. -/
def scriptOpenChars : List Char := ['<', 's', 'c', 'r', 'i', 'p', 't']

/-- The closing tag matched by `<\/script>` in `sanitizeInput`. -/
def scriptCloseChars : List Char := ['<', '/', 's', 'c', 'r', 'i', 'p', 't', '>']

/-- The `\b` word boundary directly after `<script`: satisfied at end of
input or before a non-word character. -/
def scriptBoundary : List Char → Bool
  | [] => true
  | c :: _ => !(isWordChar c)

/-- Searches for the first case-insensitive occurrence of `</script>`
and returns the remainder after it (the regex match extends exactly to
the first closing tag, because the body pattern `[^<]*((?!<\/script>)<[^<]*)*`
forbids any earlier closing tag inside the match). -/
def dropAfterScriptClose : List Char → Option (List Char)
  | [] => none
  | c :: cs =>
    if startsWithCI scriptCloseChars (c :: cs) then some ((c :: cs).drop 9)
    else dropAfterScriptClose cs

/-- Worker for `sanitizeInput`: removes every match of the source regex
`/<script\b[^<]*((?!<\/script>)<[^<]*)*<\/script>/gi`, scanning left to
right and continuing after each removed match, exactly as a global
regex replace does.  Fuel is at least the remaining length plus one, so
the zero-fuel case is unreachable. -/
def sanitizeAux : Nat → List Char → List Char
  | 0, l => l
  | Nat.succ _, [] => []
  | Nat.succ fuel, c :: cs =>
    if startsWithCI scriptOpenChars (c :: cs) && scriptBoundary ((c :: cs).drop 7) then
      match dropAfterScriptClose ((c :: cs).drop 7) with
      | some rest => sanitizeAux fuel rest
      | none => c :: sanitizeAux fuel cs
    else c :: sanitizeAux fuel cs

/-- Model of the source utility
`sanitizeInput = (input) => input.replace(/<script\b[^<]*((?!<\/script>)<[^<]*)*<\/script>/gi, '')`
(`src/production_data_viewer.tsx` lines 14-16). -/
def sanitizeInput (s : String) : String := ⟨sanitizeAux (s.data.length + 1) s.data⟩

/-- JSON insignificant whitespace (per ECMA-404, as accepted by
`JSON.parse`): space, tab, line feed, carriage return. -/
def isJsonWs (c : Char) : Bool := c = ' ' || c = '\t' || c = '\n' || c = '\r'

/-- Skips insignificant JSON whitespace. -/
def skipWs (l : List Char) : List Char := l.dropWhile isJsonWs

/-- Value of one hexadecimal digit, for `\uXXXX` escapes. -/
def hexVal (c : Char) : Option Nat :=
  if c.isDigit then some (c.toNat - 48)
  else if 'a' ≤ c && c ≤ 'f' then some (c.toNat - 87)
  else if 'A' ≤ c && c ≤ 'F' then some (c.toNat - 55)
  else none

/-- Parses the body of a JSON string literal (the opening quote already
consumed), returning the decoded string and the rest of the input.
Escapes follow ECMA-404.  A `\uXXXX` escape is decoded with
`Char.ofNat`; a lone surrogate (no scalar value) becomes `Char.ofNat`'s
fallback — a corner the viewer never relies on. -/
def parseJStringAux : List Char → List Char → Option (String × List Char)
  | _, [] => none
  | acc, c :: cs =>
    if c = '"' then some (⟨acc.reverse⟩, cs)
    else if c = '\\' then
      match cs with
      | [] => none
      | e :: cs2 =>
        if e = '"' || e = '\\' || e = '/' then parseJStringAux (e :: acc) cs2
        else if e = 'b' then parseJStringAux (Char.ofNat 8 :: acc) cs2
        else if e = 'f' then parseJStringAux (Char.ofNat 12 :: acc) cs2
        else if e = 'n' then parseJStringAux ('\n' :: acc) cs2
        else if e = 'r' then parseJStringAux ('\r' :: acc) cs2
        else if e = 't' then parseJStringAux ('\t' :: acc) cs2
        else if e = 'u' then
          match cs2 with
          | h1 :: h2 :: h3 :: h4 :: cs3 =>
            match hexVal h1, hexVal h2, hexVal h3, hexVal h4 with
            | some a, some b, some c2, some d =>
              parseJStringAux (Char.ofNat (((a * 16 + b) * 16 + c2) * 16 + d) :: acc) cs3
            | _, _, _, _ => none
          | _ => none
        else none
    else if c.toNat < 32 then none
    else parseJStringAux (c :: acc) cs

/-- Parses a JSON string literal body starting right after the opening
double quote. -/
def parseJString (l : List Char) : Option (String × List Char) :=
  parseJStringAux [] l

/-- Optional exponent part of a JSON number; `lex` is the lexeme
consumed so far. -/
def parseExpPart (lex : List Char) : List Char → Option (List Char × List Char)
  | [] => some (lex, [])
  | c :: rest =>
    if c = 'e' || c = 'E' then
      match rest with
      | s :: r2 =>
        if s = '+' || s = '-' then
          match r2.span Char.isDigit with
          | (ds, l3) => if ds.isEmpty then none else some (lex ++ c :: s :: ds, l3)
        else
          match rest.span Char.isDigit with
          | (ds, l3) => if ds.isEmpty then none else some (lex ++ c :: ds, l3)
      | [] => none
    else some (lex, c :: rest)

/-- Integer part of a JSON number: `0`, or a nonzero digit followed by
digits (ECMA-404 forbids leading zeros). -/
def parseIntPart : List Char → Option (List Char × List Char)
  | [] => none
  | c :: cs =>
    if c = '0' then some ([c], cs)
    else if c.isDigit then
      match cs.span Char.isDigit with
      | (ds, rest) => some (c :: ds, rest)
    else none

/-- Fraction and exponent parts of a JSON number, given the sign and the
result of parsing the integer part. -/
def parseNumTail (sign : List Char) : Option (List Char × List Char) →
    Option (List Char × List Char)
  | none => none
  | some (ip, l2) =>
    match l2 with
    | '.' :: l3 =>
      match l3.span Char.isDigit with
      | (ds, l4) =>
        if ds.isEmpty then none
        else parseExpPart (sign ++ ip ++ '.' :: ds) l4
    | _ => parseExpPart (sign ++ ip) l2

/-- Parses a JSON number token, returning its lexeme and the rest. -/
def parseNumber : List Char → Option (List Char × List Char)
  | [] => none
  | c :: cs =>
    if c = '-' then parseNumTail ['-'] (parseIntPart cs)
    else parseNumTail [] (parseIntPart (c :: cs))

mutual

/-- Recursive-descent model of `JSON.parse` for a single value; `fuel`
bounds the recursion depth and is ample at the top-level call. -/
def parseValue : Nat → List Char → Option (JsonValue × List Char)
  | 0, _ => none
  | Nat.succ fuel, l =>
    match skipWs l with
    | [] => none
    | c :: rest =>
      if c = '"' then
        match parseJString rest with
        | some (s, r) => some (.str s, r)
        | none => none
      else if c = '[' then
        match skipWs rest with
        | ']' :: r => some (.arr [], r)
        | l2 =>
          match parseElems fuel l2 with
          | some (es, r) => some (.arr es, r)
          | none => none
      else if c = '{' then
        match skipWs rest with
        | '}' :: r => some (.obj [], r)
        | l2 =>
          match parseFields fuel l2 with
          | some (fs, r) => some (.obj (fs.foldl (fun a p => objInsert a p.1 p.2) []), r)
          | none => none
      else if c = 't' then
        match rest with
        | 'r' :: 'u' :: 'e' :: r => some (.bool true, r)
        | _ => none
      else if c = 'f' then
        match rest with
        | 'a' :: 'l' :: 's' :: 'e' :: r => some (.bool false, r)
        | _ => none
      else if c = 'n' then
        match rest with
        | 'u' :: 'l' :: 'l' :: r => some (.null, r)
        | _ => none
      else
        match parseNumber (c :: rest) with
        | some (lex, r) => some (.num ⟨lex⟩, r)
        | none => none

/-- Comma-separated JSON array elements up to and including the closing
bracket. -/
def parseElems : Nat → List Char → Option (List JsonValue × List Char)
  | 0, _ => none
  | Nat.succ fuel, l =>
    match parseValue fuel l with
    | none => none
    | some (v, r) =>
      match skipWs r with
      | ',' :: r2 =>
        match parseElems fuel r2 with
        | some (vs, r3) => some (v :: vs, r3)
        | none => none
      | ']' :: r2 => some ([v], r2)
      | _ => none

/-- Comma-separated JSON object members up to and including the closing
brace, returned in textual order (duplicate keys are collapsed with JS
assignment semantics by the caller). -/
def parseFields : Nat → List Char → Option (List (String × JsonValue) × List Char)
  | 0, _ => none
  | Nat.succ fuel, l =>
    match skipWs l with
    | '"' :: r =>
      match parseJString r with
      | none => none
      | some (k, r1) =>
        match skipWs r1 with
        | ':' :: r2 =>
          match parseValue fuel r2 with
          | none => none
          | some (v, r3) =>
            match skipWs r3 with
            | ',' :: r4 =>
              match parseFields fuel r4 with
              | some (fs, r5) => some ((k, v) :: fs, r5)
              | none => none
            | '}' :: r4 => some ([(k, v)], r4)
            | _ => none
        | _ => none
    | _ => none

end

/-- Model of `JSON.parse`: parses one JSON value, allowing only
insignificant whitespace around it, and fails (like the thrown
`SyntaxError`) otherwise. -/
def jsonParse (s : String) : Option JsonValue :=
  match parseValue (s.data.length + 2) s.data with
  | some (v, rest) => if (skipWs rest).isEmpty then some v else none
  | none => none

/-- A single or double quote character, as matched by the field-cleaning
regex class `["']`. -/
def isQuoteChar (c : Char) : Bool := c = '"' || c = '\''

/-- Removes one leading quote character if present. -/
def stripLeadQuote : List Char → List Char
  | [] => []
  | c :: cs => if isQuoteChar c then cs else c :: cs

/-- Model of `.replace(/^["']|["']$/g, '')`: the global regex removes one
leading quote character (if any) and one trailing quote character of
what remains (if any); the two need not match. -/
def stripQuotes (s : String) : String :=
  ⟨(stripLeadQuote (stripLeadQuote s.data).reverse).reverse⟩

/-- Model of the per-field cleanup `v.trim().replace(/^["']|["']$/g, '')`
applied to every header and cell field. -/
def cleanField (s : String) : String := stripQuotes (jsTrim s)

/-- The delimiter candidate list `[',', '\t', '|', ';']` from the source,
in its priority order. -/
def delimiters : List Char := [',', '\t', '|', ';']

/-- Model of the delimiter-sniffing loop: fold over the candidates,
replacing the current best only on a strictly larger count
(`if (count > maxCount)`), starting from `bestDelimiter = ','`,
`maxCount = 0`.  Returns `(bestDelimiter, maxCount)`. -/
def detectDelimiter (line : String) : Char × Nat :=
  delimiters.foldl
    (fun best d => if best.2 < countChar d line then (d, countChar d line) else best)
    (',', 0)

/-- The `typeMap` display labels from the source. -/
def typeMap (d : Char) : String :=
  if d = ',' then "CSV"
  else if d = '\t' then "TSV"
  else if d = '|' then "Pipe-separated"
  else "Semicolon-separated"

/-- Model of `text.split('\n').filter(line => line.trim())`. -/
def nonBlankLines (s : String) : List String :=
  (splitChar '\n' s).filter (fun l => jsTrim l != "")

/-- The body of the `headers.forEach((header, index) => ...)` loop that
builds one record, folded over an indexed header list. -/
def rowFold (values : List String) (ps : List (Nat × String))
    (acc : List (String × JsonValue)) : List (String × JsonValue) :=
  ps.foldl (fun a p => objInsert a p.2 (.str (values.getD p.1 ""))) acc

/-- Model of one delimited record: `headers.forEach((header, index) =>
obj[header] = values[index] || '')`.  An index past the end of `values`
reads `undefined`, and `undefined || ''` (like `'' || ''`) is `''`, so
the stored value is `values.getD index ""`. -/
def mkRow (headers : List String) (values : List String) : JsonValue :=
  .obj (rowFold values headers.enum [])

/-- One `Set.add` step of the `columns` memo: append the key unless it
was already seen. -/
def insertSeen (acc : List String) (k : String) : List String :=
  if acc.contains k then acc else acc ++ [k]

/-- First-seen-order deduplication of a key list (`Set` insertion
semantics); the key set a delimited record ends up with. -/
def dedupKeys (ks : List String) : List String := ks.foldl insertSeen []

/-- Model of the `columns` memo (`src/production_data_viewer.tsx` lines
565-570 and the identical memo in the html file): the first-seen-order
union of `Object.keys` over all parsed records. -/
def columnsOf (rows : List JsonValue) : List String :=
  rows.foldl (fun acc r => (jsKeys r).foldl insertSeen acc) []

/-- Result of a `parseData` call: `nil` models the `return null` for
blank input, `ok` a returned `\x7bdata, type\x7d` object, and `err` a thrown
`Error` with its message. -/
inductive Outcome where
  | nil : Outcome
  | ok (data : List JsonValue) (label : String) : Outcome
  | err (msg : String) : Outcome
deriving Repr, DecidableEq

/-- The row cap `MAX_ROWS_DISPLAY = 1000` from the tsx source. -/
def MAX_ROWS_DISPLAY : Nat := 1000

/-- The error message thrown by the tsx `parseData`. -/
def unrecognizedMsgTsx : String :=
  "Unrecognized format. Please use JSON, CSV, TSV, or other delimited data."

/-- The error message thrown by the html `parseData`. -/
def unrecognizedMsgHtml : String :=
  "Unrecognized format. Please use JSON, CSV, or other delimited data."

/-- Model of `Array.isArray(jsonData) ? jsonData : [jsonData]`. -/
def jsToArray : JsonValue → List JsonValue
  | .arr xs => xs
  | v => [v]

/-- The `sanitizedData` local of the tsx `parseData`:
`sanitizeInput(data.trim())`. -/
def sanitizedData (data : String) : String := sanitizeInput (jsTrim data)

/-- Header-name computation of the tsx `parseData` (lines 481-483):
split the header line, clean each field, drop empty names. -/
def headerFieldsTsx (d : Char) (line : String) : List String :=
  ((splitChar d line).map cleanField).filter (fun h => h != "")

/-- Cell-field computation shared by both implementations (tsx line 487,
html line 141): split a data line and clean each field. -/
def rowValues (d : Char) (line : String) : List String :=
  (splitChar d line).map cleanField

/-- The tsx local `lines = sanitizedData.split('\n').filter(...)`. -/
def tsxLines (data : String) : List String := nonBlankLines (sanitizedData data)

/-- The header line `lines[0]` of the tsx parse. -/
def tsxLine0 (data : String) : String := (tsxLines data).getD 0 ""

/-- The tsx locals `(bestDelimiter, maxCount)`. -/
def tsxBest (data : String) : Char × Nat := detectDelimiter (tsxLine0 data)

/-- The tsx local `headers`. -/
def tsxHeaders (data : String) : List String :=
  headerFieldsTsx (tsxBest data).1 (tsxLine0 data)

/-- The tsx local `rows = lines.slice(1, MAX_ROWS_DISPLAY + 1).map(...)`. -/
def tsxRows (data : String) : List JsonValue :=
  (((tsxLines data).drop 1).take MAX_ROWS_DISPLAY).map
    (fun line => mkRow (tsxHeaders data) (rowValues (tsxBest data).1 line))

/-- Model of `parseData` from `src/production_data_viewer.tsx`, lines
453-509: blank input returns `null`; otherwise the trimmed input is
sanitized, tried as JSON (capped at `MAX_ROWS_DISPLAY` elements), and
otherwise sniffed as a delimited table (header = first non-blank line,
data rows capped at `MAX_ROWS_DISPLAY`); anything else throws. -/
def parseData (data : String) : Outcome :=
  if jsTrim data = "" then .nil
  else
    match jsonParse (sanitizedData data) with
    | some jsonData => .ok ((jsToArray jsonData).take MAX_ROWS_DISPLAY) "JSON"
    | none =>
      if 1 < (tsxLines data).length then
        if 0 < (tsxBest data).2 then
          if 1 < (tsxHeaders data).length then
            if 0 < (tsxRows data).length then .ok (tsxRows data) (typeMap (tsxBest data).1)
            else .err unrecognizedMsgTsx
          else .err unrecognizedMsgTsx
        else .err unrecognizedMsgTsx
      else .err unrecognizedMsgTsx

/-- The html local `lines = data.trim().split('\n').filter(...)`. -/
def htmlLines (data : String) : List String := nonBlankLines (jsTrim data)

/-- The header line `lines[0]` of the html parse. -/
def htmlLine0 (data : String) : String := (htmlLines data).getD 0 ""

/-- The html locals `(bestDelimiter, maxCount)`. -/
def htmlBest (data : String) : Char × Nat := detectDelimiter (htmlLine0 data)

/-- The html local `headers` (note: no empty-name filter). -/
def htmlHeaders (data : String) : List String :=
  (splitChar (htmlBest data).1 (htmlLine0 data)).map cleanField

/-- The html local `rows = lines.slice(1).map(...)` (note: no row cap). -/
def htmlRows (data : String) : List JsonValue :=
  ((htmlLines data).drop 1).map
    (fun line => mkRow (htmlHeaders data) (rowValues (htmlBest data).1 line))

/-- Model of `parseData` from `src/data-table-viewer.html`, lines
112-157: identical pipeline except that the raw (unsanitized) text is
parsed, no row cap is applied on either path, and empty header names
are not filtered out. -/
def parseDataHtml (data : String) : Outcome :=
  if jsTrim data = "" then .nil
  else
    match jsonParse data with
    | some jsonData => .ok (jsToArray jsonData) "JSON"
    | none =>
      if 1 < (htmlLines data).length then
        if 0 < (htmlBest data).2 then
          if 0 < (htmlRows data).length ∧ 1 < (htmlHeaders data).length then
            .ok (htmlRows data) (typeMap (htmlBest data).1)
          else .err unrecognizedMsgHtml
        else .err unrecognizedMsgHtml
      else .err unrecognizedMsgHtml

/-- Outcome comparison used by the cross-implementation claim: equal
data and format label on success, both null, or both thrown (message
text aside). -/
def sameOutcome : Outcome → Outcome → Bool
  | .nil, .nil => true
  | .ok d1 t1, .ok d2 t2 => decide (d1 = d2) && decide (t1 = t2)
  | .err _, .err _ => true
  | _, _ => false

/-- The hard deadline passed to `setTimeout` before the Gemini fetch
(`src/production_data_viewer.tsx` line 385): 30000 milliseconds. -/
def REPAIR_TIMEOUT_MS : Nat := 30000

/-- The backquote character, for fenced-code-block stripping. -/
def backquoteChar : Char := Char.ofNat 96

/-- Removes a leading fenced-code-block marker, modelling
`.replace(/^` followed by three backquotes `[\w]*\n?/, '')`. -/
def stripLeadFence (l : List Char) : List Char :=
  match l with
  | a :: b :: c :: rest =>
    if a = backquoteChar && b = backquoteChar && c = backquoteChar then
      match rest.dropWhile isWordChar with
      | '\n' :: r => r
      | r => r
    else a :: b :: c :: rest
  | _ => l

/-- Removes a trailing fenced-code-block marker, modelling
`.replace(/\n?` followed by three backquotes `$/, '')`. -/
def stripTailFence (l : List Char) : List Char :=
  match l.reverse with
  | c3 :: c2 :: c1 :: rest =>
    if c3 = backquoteChar && c2 = backquoteChar && c1 = backquoteChar then
      match rest with
      | '\n' :: r => r.reverse
      | r => r.reverse
    else l
  | _ => l

/-- Response-postprocessing of `correctDataWithGemini` (tsx lines
437-442): trim the candidate text, strip one optional leading and
trailing fenced-code-block marker, and trim again. -/
def stripCodeFence (s : String) : String :=
  jsTrim ⟨stripTailFence (stripLeadFence (jsTrim s).data)⟩

/-- How the external Gemini call would settle, were it allowed to run to
completion: a non-ok HTTP response (with the optional
`errorData.error.message` and the status code), an empty candidate
list, or a first candidate carrying text. -/
inductive GeminiResponse where
  | httpError (errMsg : Option String) (status : Nat) : GeminiResponse
  | noCandidates : GeminiResponse
  | candidateText (text : String) : GeminiResponse
deriving Repr, DecidableEq

/-- Environment of one repair call.  The source's timing behaviour
(`AbortController` + `setTimeout(..., 30000)`) is modelled by the
wall-clock time at which the fetch would settle: when that time is at
least the deadline, the abort fires first, the fetch rejects with
`AbortError`, and any later settlement is discarded. -/
structure RepairEnv where
  resolvesAfterMs : Nat
  response : GeminiResponse
deriving Repr, DecidableEq

/-- Model of `correctDataWithGemini` (tsx lines 365-451) as a function
of the call environment: the api-key precheck, the timeout race, and
the per-branch error messages are taken verbatim from the source. -/
def correctDataWithGemini (apiKeyValid : Bool) (env : RepairEnv) : Except String String :=
  if !apiKeyValid then .error "Please enter a valid Gemini API key first"
  else if REPAIR_TIMEOUT_MS ≤ env.resolvesAfterMs then
    .error "Request timed out. Please try again."
  else
    match env.response with
    | .httpError errMsg status =>
      .error ("AI correction failed: " ++ errMsg.getD ("API Error: " ++ toString status))
    | .noCandidates => .error "AI correction failed: No response from Gemini API"
    | .candidateText t => .ok (stripCodeFence t)

/-- The React state touched by the repair flow of the tsx component. -/
structure AppState where
  inputData : String
  parsedData : Option (List JsonValue)
  errorMsg : String
  dataType : String
  isProcessing : Bool
  apiKeyValid : Bool
deriving Repr, DecidableEq

/-- Whether a repair attempt can start: the Fix-with-AI button is
rendered only when an error is displayed and the input is non-blank
(tsx lines 664-677), and is disabled while `isProcessing` or without a
valid api key (line 679). -/
def canStartRepair (st : AppState) : Bool :=
  st.errorMsg != "" && jsTrim st.inputData != "" && !st.isProcessing && st.apiKeyValid

/-- Model of `handleAICorrection` (tsx lines 536-557) run to
completion: blank input returns immediately; otherwise
`setIsProcessing(true)` is followed by the awaited repair call, the
re-parse of the corrected text on success, the `catch` that stores the
failure message, and the `finally` that always clears `isProcessing`. -/
def handleAICorrection (st : AppState) (env : RepairEnv) : AppState :=
  if jsTrim st.inputData = "" then st
  else
    match correctDataWithGemini st.apiKeyValid env with
    | .ok corrected =>
      match parseData corrected with
      | .ok data label =>
        { st with inputData := corrected, parsedData := some data, dataType := label,
                  errorMsg := "", isProcessing := false }
      | .nil => { st with inputData := corrected, isProcessing := false }
      | .err m => { st with inputData := corrected, errorMsg := m, isProcessing := false }
    | .error m => { st with errorMsg := m, isProcessing := false }

/-- The repeated data line of the oversized delimited input used to
exercise row-cap truncation. -/
def bigLineChunk : List Char := ['\n', '1', ',', '2']

/-- An input with header `a,b` followed by 1001 data lines `1,2` — one
more than the 1000-row cap. -/
def bigInput : String := ⟨['a', ',', 'b'] ++ (List.replicate 1001 bigLineChunk).flatten⟩

/-- The record every data line of `bigInput` normalizes to. -/
def bigRow : JsonValue := JsonValue.obj [("a", JsonValue.str "1"), ("b", JsonValue.str "2")]

/-!
Helper lemmas.  These are shared infrastructure; no claim theorem is
referenced by any other proof.
-/

theorem contains_iff_mem (l : List String) (a : String) : l.contains a = true ↔ a ∈ l :=
  List.elem_iff

theorem objInsert_keys (f : List (String × JsonValue)) (k : String) (v : JsonValue) :
    (objInsert f k v).map Prod.fst = insertSeen (f.map Prod.fst) k := by
  unfold objInsert insertSeen
  by_cases h : (f.map Prod.fst).contains k
  · rw [if_pos h, if_pos h, List.map_map]
    refine List.map_congr_left ?_
    intro p _
    by_cases hp : p.1 = k
    · show (if p.1 = k then (k, v) else p).1 = p.1
      rw [if_pos hp, hp]
    · show (if p.1 = k then (k, v) else p).1 = p.1
      rw [if_neg hp]
  · rw [if_neg h, if_neg h, List.map_append]
    rfl

theorem find?_replaced (f : List (String × JsonValue)) (k : String) (v : JsonValue)
    (hc : (f.map Prod.fst).contains k = true) :
    (f.map (fun p => if p.1 = k then (k, v) else p)).find? (fun p => decide (p.1 = k)) =
      some (k, v) := by
  induction f with
  | nil => simp at hc
  | cons p t ih =>
    rw [List.map_cons]
    by_cases hp : p.1 = k
    · rw [if_pos hp]
      exact List.find?_cons_of_pos _ (by simp)
    · rw [if_neg hp, List.find?_cons_of_neg _ (by simpa using hp)]
      refine ih ?_
      rw [contains_iff_mem] at hc ⊢
      simp only [List.map_cons, List.mem_cons] at hc
      cases hc with
      | inl he => exact absurd he.symm hp
      | inr hm => exact hm

theorem find?_replaced_other (f : List (String × JsonValue)) (k k2 : String)
    (v : JsonValue) (h : k ≠ k2) :
    (f.map (fun p => if p.1 = k2 then (k2, v) else p)).find? (fun p => decide (p.1 = k)) =
      f.find? (fun p => decide (p.1 = k)) := by
  induction f with
  | nil => simp
  | cons p t ih =>
    rw [List.map_cons]
    by_cases hp : p.1 = k2
    · have hk2 : ¬(k2 = k) := fun he => h he.symm
      have hpk : ¬(p.1 = k) := by rw [hp]; exact hk2
      rw [if_pos hp, List.find?_cons_of_neg _ (by simpa using hk2),
        List.find?_cons_of_neg _ (by simpa using hpk)]
      exact ih
    · rw [if_neg hp]
      by_cases hpk : p.1 = k
      · rw [List.find?_cons_of_pos _ (by simpa using hpk),
          List.find?_cons_of_pos _ (by simpa using hpk)]
      · rw [List.find?_cons_of_neg _ (by simpa using hpk),
          List.find?_cons_of_neg _ (by simpa using hpk)]
        exact ih

theorem jsLookup_objInsert_self (f : List (String × JsonValue)) (k : String) (v : JsonValue) :
    jsLookup (objInsert f k v) k = some v := by
  unfold objInsert jsLookup
  by_cases h : (f.map Prod.fst).contains k
  · rw [if_pos h, find?_replaced f k v h]
    rfl
  · rw [if_neg h, List.find?_append]
    have hnone : f.find? (fun p => decide (p.1 = k)) = none := by
      rw [List.find?_eq_none]
      intro p hp hpk
      rw [decide_eq_true_eq] at hpk
      exact h ((contains_iff_mem _ _).2 (hpk ▸ List.mem_map_of_mem Prod.fst hp))
    rw [hnone]
    simp

theorem jsLookup_objInsert_other (f : List (String × JsonValue)) (k k2 : String)
    (v : JsonValue) (h : k ≠ k2) : jsLookup (objInsert f k2 v) k = jsLookup f k := by
  unfold objInsert jsLookup
  by_cases hc : (f.map Prod.fst).contains k2
  · rw [if_pos hc, find?_replaced_other f k k2 v h]
  · rw [if_neg hc, List.find?_append]
    have hk2 : ¬(k2 = k) := fun he => h he.symm
    have h2 : [(k2, v)].find? (fun p => decide (p.1 = k)) = none := by
      simp [hk2]
    rw [h2]
    cases f.find? (fun p => decide (p.1 = k)) <;> rfl

theorem objInsert_mem (f : List (String × JsonValue)) (k : String) (v : JsonValue)
    (p : String × JsonValue) (hp : p ∈ objInsert f k v) : p ∈ f ∨ p = (k, v) := by
  unfold objInsert at hp
  by_cases hc : (f.map Prod.fst).contains k
  · rw [if_pos hc] at hp
    obtain ⟨q, hq, hqe⟩ := List.mem_map.1 hp
    by_cases hqk : q.1 = k
    · right
      rw [if_pos hqk] at hqe
      exact hqe.symm
    · left
      rw [if_neg hqk] at hqe
      exact hqe ▸ hq
  · rw [if_neg hc] at hp
    simpa using hp

theorem mem_insertSeen (acc : List String) (k x : String) :
    x ∈ insertSeen acc k ↔ x ∈ acc ∨ x = k := by
  unfold insertSeen
  by_cases h : acc.contains k
  · rw [if_pos h]
    constructor
    · exact Or.inl
    · rintro (hx | rfl)
      · exact hx
      · exact (contains_iff_mem _ _).1 h
  · rw [if_neg h]
    simp

theorem insertSeen_nodup (acc : List String) (k : String) (h : acc.Nodup) :
    (insertSeen acc k).Nodup := by
  unfold insertSeen
  by_cases hc : acc.contains k
  · rw [if_pos hc]
    exact h
  · rw [if_neg hc]
    have hk : k ∉ acc := fun hm => hc ((contains_iff_mem _ _).2 hm)
    simpa [List.nodup_append, h] using hk

theorem insertSeen_of_mem (acc : List String) (k : String) (h : k ∈ acc) :
    insertSeen acc k = acc := by
  unfold insertSeen
  rw [if_pos ((contains_iff_mem _ _).2 h)]

theorem mem_foldl_insertSeen (ks : List String) :
    ∀ (acc : List String) (x : String),
      x ∈ ks.foldl insertSeen acc ↔ x ∈ acc ∨ x ∈ ks := by
  induction ks with
  | nil => simp
  | cons k t ih =>
    intro acc x
    rw [List.foldl_cons, ih, mem_insertSeen]
    simp only [List.mem_cons]
    tauto

theorem foldl_insertSeen_nodup (ks : List String) :
    ∀ acc : List String, acc.Nodup → (ks.foldl insertSeen acc).Nodup := by
  induction ks with
  | nil => exact fun acc h => h
  | cons k t ih =>
    intro acc h
    exact ih _ (insertSeen_nodup acc k h)

theorem foldl_insertSeen_of_subset (ks : List String) :
    ∀ acc : List String, (∀ k ∈ ks, k ∈ acc) → ks.foldl insertSeen acc = acc := by
  induction ks with
  | nil => intro acc _; rfl
  | cons k t ih =>
    intro acc h
    rw [List.foldl_cons, insertSeen_of_mem acc k (h k (by simp))]
    exact ih acc (fun x hx => h x (by simp [hx]))

theorem dedupKeys_nodup (ks : List String) : (dedupKeys ks).Nodup :=
  foldl_insertSeen_nodup ks [] List.nodup_nil

theorem mem_dedupKeys (ks : List String) (x : String) : x ∈ dedupKeys ks ↔ x ∈ ks := by
  unfold dedupKeys
  rw [mem_foldl_insertSeen]
  simp

theorem dedupKeys_idem (ks : List String) : dedupKeys (dedupKeys ks) = dedupKeys ks := by
  unfold dedupKeys
  have h : ∀ K : List String, ∀ acc : List String, (∀ x ∈ K, x ∉ acc) → K.Nodup →
      K.foldl insertSeen acc = acc ++ K := by
    intro K
    induction K with
    | nil => intro acc _ _; simp
    | cons k t ih =>
      intro acc hd hn
      have hk : k ∉ acc := hd k (by simp)
      have hstep : insertSeen acc k = acc ++ [k] := by
        unfold insertSeen
        rw [if_neg (fun hc => hk ((contains_iff_mem _ _).1 hc))]
      rw [List.foldl_cons, hstep]
      rw [ih (acc ++ [k]) ?_ (List.Nodup.of_cons hn)]
      · simp
      · intro x hx
        simp only [List.mem_append, List.mem_singleton]
        rintro (hxa | rfl)
        · exact hd x (by simp [hx]) hxa
        · exact (List.nodup_cons.1 hn).1 hx
  have h2 := h (List.foldl insertSeen [] ks) [] (by simp) (foldl_insertSeen_nodup ks [] List.nodup_nil)
  simpa using h2

theorem enumFrom_map_snd {α : Type} (l : List α) :
    ∀ n : Nat, (List.enumFrom n l).map Prod.snd = l := by
  induction l with
  | nil => intro n; rfl
  | cons a t ih =>
    intro n
    show (a :: (List.enumFrom (n + 1) t).map Prod.snd) = a :: t
    rw [ih]

theorem rowFold_keys (vs : List String) (ps : List (Nat × String)) :
    ∀ acc : List (String × JsonValue),
      (rowFold vs ps acc).map Prod.fst =
        (ps.map Prod.snd).foldl insertSeen (acc.map Prod.fst) := by
  induction ps with
  | nil => intro acc; rfl
  | cons p t ih =>
    intro acc
    show (rowFold vs t (objInsert acc p.2 (.str (vs.getD p.1 "")))).map Prod.fst = _
    rw [ih, objInsert_keys]
    rfl

theorem mkRow_keys (hs vs : List String) : jsKeys (mkRow hs vs) = dedupKeys hs := by
  show (rowFold vs hs.enum []).map Prod.fst = dedupKeys hs
  rw [rowFold_keys]
  have he : (hs.enum).map Prod.snd = hs := enumFrom_map_snd hs 0
  rw [he]
  rfl

theorem rowFold_lookup_notmem (vs : List String) (h : String) (ps : List (Nat × String))
    (hnm : ∀ p ∈ ps, p.2 ≠ h) :
    ∀ acc, jsLookup (rowFold vs ps acc) h = jsLookup acc h := by
  induction ps with
  | nil => intro acc; rfl
  | cons p t ih =>
    intro acc
    show jsLookup (rowFold vs t (objInsert acc p.2 (.str (vs.getD p.1 "")))) h = _
    rw [ih (fun q hq => hnm q (by simp [hq]))]
    exact jsLookup_objInsert_other _ _ _ _ (fun he => hnm p (by simp) he.symm)

theorem rowFold_lookup (vs : List String) (hs : List String) :
    ∀ (n : Nat) (acc : List (String × JsonValue)) (h : String), hs.Nodup → h ∈ hs →
      jsLookup (rowFold vs (List.enumFrom n hs) acc) h =
        some (.str (vs.getD (n + hs.indexOf h) "")) := by
  induction hs with
  | nil => intro n acc h _ hm; exact absurd hm (List.not_mem_nil h)
  | cons h0 t ih =>
    intro n acc h hn hm
    show jsLookup (rowFold vs (List.enumFrom (n + 1) t)
      (objInsert acc h0 (.str (vs.getD n "")))) h = _
    by_cases he : h = h0
    · subst he
      have hnot : ∀ p ∈ List.enumFrom (n + 1) t, p.2 ≠ h := by
        intro p hp hpe
        have hsnd : p.2 ∈ t := by
          have := List.mem_map_of_mem Prod.snd hp
          rwa [enumFrom_map_snd] at this
        exact (List.nodup_cons.1 hn).1 (hpe ▸ hsnd)
      rw [rowFold_lookup_notmem vs h _ hnot, jsLookup_objInsert_self,
        List.indexOf_cons_self, Nat.add_zero]
    · have hm' : h ∈ t := by
        cases List.mem_cons.1 hm with
        | inl hx => exact absurd hx he
        | inr hx => exact hx
      rw [ih (n + 1) _ h (List.Nodup.of_cons hn) hm',
        List.indexOf_cons_ne t (fun hx => he hx.symm)]
      have : n + 1 + t.indexOf h = n + (t.indexOf h).succ := by omega
      rw [this]

theorem rowFold_values_str (vs : List String) (ps : List (Nat × String)) :
    ∀ acc, (∀ p ∈ acc, ∃ sv, p.2 = JsonValue.str sv) →
      ∀ p ∈ rowFold vs ps acc, ∃ sv, p.2 = JsonValue.str sv := by
  induction ps with
  | nil => intro acc hacc; exact hacc
  | cons q t ih =>
    intro acc hacc p hp
    refine ih _ ?_ p hp
    intro r hr
    cases objInsert_mem _ _ _ r hr with
    | inl hra => exact hacc r hra
    | inr hre => exact ⟨vs.getD q.1 "", by rw [hre]⟩

theorem jsLookup_isSome_of_mem_keys (f : List (String × JsonValue)) (k : String)
    (h : k ∈ f.map Prod.fst) : ∃ v, jsLookup f k = some v := by
  unfold jsLookup
  obtain ⟨p, hp, hpk⟩ := List.mem_map.1 h
  have hsome : (f.find? (fun p => decide (p.1 = k))).isSome := by
    rw [List.find?_isSome]
    exact ⟨p, hp, by simp [hpk]⟩
  obtain ⟨q, hq⟩ := Option.isSome_iff_exists.1 hsome
  exact ⟨q.2, by rw [hq]; rfl⟩

theorem columnsOf_uniform (K : List String) (rows : List JsonValue)
    (hne : rows ≠ []) (hK : ∀ r ∈ rows, jsKeys r = K) :
    columnsOf rows = dedupKeys K := by
  have hstep : ∀ (rs : List JsonValue) (acc : List String), (∀ r ∈ rs, jsKeys r = K) →
      (∀ x ∈ K, x ∈ acc) →
      rs.foldl (fun acc r => (jsKeys r).foldl insertSeen acc) acc = acc := by
    intro rs
    induction rs with
    | nil => intro acc _ _; rfl
    | cons r t ih =>
      intro acc hr hsub
      rw [List.foldl_cons, hr r (by simp), foldl_insertSeen_of_subset K acc hsub]
      exact ih acc (fun q hq => hr q (by simp [hq])) hsub
  cases rows with
  | nil => exact absurd rfl hne
  | cons r t =>
    show (r :: t).foldl (fun acc r => (jsKeys r).foldl insertSeen acc) [] = dedupKeys K
    rw [List.foldl_cons, hK r (by simp)]
    exact hstep t (K.foldl insertSeen []) (fun q hq => hK q (by simp [hq]))
      (fun x hx => (mem_foldl_insertSeen K [] x).2 (Or.inr hx))

theorem parseData_delimited_inv (s : String) (data : List JsonValue) (label : String)
    (h : parseData s = .ok data label) (hl : label ≠ "JSON") :
    jsonParse (sanitizedData s) = none ∧
    1 < (tsxLines s).length ∧
    0 < (tsxBest s).2 ∧
    1 < (tsxHeaders s).length ∧
    label = typeMap (tsxBest s).1 ∧
    data = tsxRows s := by
  unfold parseData at h
  split at h
  · exact absurd h (by simp)
  · split at h
    next v hjp =>
      have hinj := Outcome.ok.inj h
      exact absurd hinj.2.symm hl
    next hjp =>
      split at h
      case isTrue h1 =>
        split at h
        case isTrue h2 =>
          split at h
          case isTrue h3 =>
            split at h
            case isTrue h4 =>
              have hinj := Outcome.ok.inj h
              exact ⟨hjp, h1, h2, h3, hinj.2.symm, hinj.1.symm⟩
            case isFalse h4 => exact absurd h (by simp)
          case isFalse h3 => exact absurd h (by simp)
        case isFalse h2 => exact absurd h (by simp)
      case isFalse h1 => exact absurd h (by simp)

theorem jsLookup_mem (f : List (String × JsonValue)) (k : String) (v : JsonValue)
    (h : jsLookup f k = some v) : ∃ p ∈ f, p.2 = v := by
  unfold jsLookup at h
  cases hf : f.find? (fun p => decide (p.1 = k)) with
  | none => rw [hf] at h; exact absurd h (by simp)
  | some p =>
    rw [hf] at h
    exact ⟨p, List.mem_of_find?_eq_some hf, by simpa using h⟩

/-- Claim C1, corrected.  The original claim fails on the JSON path
(see the counterexample): JSON records are stored raw, so a record may
lack a key that another record contributes to `columns`.  Amended
claim, proved here: for every `ParseResult` produced by the delimited
path, every record is an object whose key set is exactly `columns`,
and every column is present in every record with a (possibly empty)
string value — absent cells are never a missing key. -/
theorem c1_delimited_records_complete (s : String) (data : List JsonValue) (label : String)
    (h : parseData s = Outcome.ok data label) (hl : label ≠ "JSON") :
    ∀ row ∈ data, ∃ kvs, row = JsonValue.obj kvs ∧
      (∀ x, x ∈ kvs.map Prod.fst ↔ x ∈ columnsOf data) ∧
      (∀ c ∈ columnsOf data, ∃ sv, jsLookup kvs c = some (JsonValue.str sv)) := by
  obtain ⟨hjp, h1, h2, h3, hlab, hdata⟩ := parseData_delimited_inv s data label h hl
  subst hdata
  intro row hrow
  have hK : ∀ r ∈ tsxRows s, jsKeys r = dedupKeys (tsxHeaders s) := by
    intro r hr
    obtain ⟨l2, _, hr2⟩ := List.mem_map.1 hr
    rw [← hr2]
    exact mkRow_keys _ _
  have hne : tsxRows s ≠ [] := by
    intro he
    rw [he] at hrow
    exact absurd hrow (List.not_mem_nil row)
  have hcols : columnsOf (tsxRows s) = dedupKeys (dedupKeys (tsxHeaders s)) :=
    columnsOf_uniform _ _ hne hK
  rw [dedupKeys_idem] at hcols
  obtain ⟨line, hline, hrowe⟩ := List.mem_map.1 hrow
  have hkeys : (rowFold (rowValues (tsxBest s).1 line) (tsxHeaders s).enum []).map Prod.fst =
      dedupKeys (tsxHeaders s) :=
    mkRow_keys (tsxHeaders s) (rowValues (tsxBest s).1 line)
  refine ⟨rowFold (rowValues (tsxBest s).1 line) (tsxHeaders s).enum [], by rw [← hrowe]; rfl,
    ?_, ?_⟩
  · intro x
    rw [hkeys, hcols]
  · intro c hc
    rw [hcols] at hc
    have hmem : c ∈ (rowFold (rowValues (tsxBest s).1 line) (tsxHeaders s).enum []).map Prod.fst := by
      rw [hkeys]
      exact hc
    obtain ⟨v, hv⟩ := jsLookup_isSome_of_mem_keys _ c hmem
    obtain ⟨p, hpmem, hpv⟩ := jsLookup_mem _ c v hv
    obtain ⟨sv, hsv⟩ := rowFold_values_str _ _ [] (by simp) p hpmem
    exact ⟨sv, by rw [hv, ← hpv, hsv]⟩

/-- Witness for C1's amended theorem at the concrete delimited input
`name,age` / `John,30`. -/
theorem c1_delimited_records_complete_witness :
    parseData "name,age\nJohn,30" =
      Outcome.ok [JsonValue.obj [("name", JsonValue.str "John"), ("age", JsonValue.str "30")]]
        "CSV" ∧
    (∃ kvs, JsonValue.obj [("name", JsonValue.str "John"), ("age", JsonValue.str "30")] =
        JsonValue.obj kvs ∧
      (∀ x, x ∈ kvs.map Prod.fst ↔
        x ∈ columnsOf
          [JsonValue.obj [("name", JsonValue.str "John"), ("age", JsonValue.str "30")]]) ∧
      (∀ c ∈ columnsOf
          [JsonValue.obj [("name", JsonValue.str "John"), ("age", JsonValue.str "30")]],
        ∃ sv, jsLookup kvs c = some (JsonValue.str sv))) :=
  ⟨by decide,
    c1_delimited_records_complete "name,age\nJohn,30"
      [JsonValue.obj [("name", JsonValue.str "John"), ("age", JsonValue.str "30")]] "CSV"
      (by decide) (by decide)
      (JsonValue.obj [("name", JsonValue.str "John"), ("age", JsonValue.str "30")])
      (by simp)⟩

/-- Counterexample to C1 as stated: parsing the JSON input
`[{"a":1},{"b":2}]` (braces shown as escapes) yields records that keep
their raw key sets; `columns` is `[a, b]` but the first record has no
key `b` at all — an absent cell IS a missing key on the JSON path. -/
theorem c1_counterexample :
    parseData "[\x7b\"a\":1\x7d,\x7b\"b\":2\x7d]" =
      Outcome.ok [JsonValue.obj [("a", JsonValue.num "1")],
        JsonValue.obj [("b", JsonValue.num "2")]] "JSON" ∧
    columnsOf [JsonValue.obj [("a", JsonValue.num "1")],
        JsonValue.obj [("b", JsonValue.num "2")]] = ["a", "b"] ∧
    jsLookup [("a", JsonValue.num "1")] "b" = none := by
  refine ⟨by decide, by decide, by decide⟩

/-- Claim C8, confirmed.  For delimited data the parsed records are
exactly `mkRow headers (rowValues ...)` per data line, and `mkRow`
realizes the positional zip of the claim: the record's key set is the
header list (deduplicated) — so extra fields beyond the headers are
dropped — and the value under the i-th header is field i when present
and the empty string when the line has fewer fields. -/
theorem c8_row_zip (s : String) (data : List JsonValue) (label : String)
    (h : parseData s = Outcome.ok data label) (hl : label ≠ "JSON") :
    data = tsxRows s ∧
    (∀ hs vs : List String, jsKeys (mkRow hs vs) = dedupKeys hs) ∧
    (∀ (hs vs : List String) (hname : String), hs.Nodup → hname ∈ hs →
      ∃ kvs, mkRow hs vs = JsonValue.obj kvs ∧
        jsLookup kvs hname = some (JsonValue.str (vs.getD (hs.indexOf hname) ""))) := by
  refine ⟨(parseData_delimited_inv s data label h hl).2.2.2.2.2,
    fun hs vs => mkRow_keys hs vs, ?_⟩
  intro hs vs hname hn hm
  refine ⟨rowFold vs hs.enum [], rfl, ?_⟩
  have := rowFold_lookup vs hs 0 [] hname hn hm
  simpa using this

/-- Witness for C8 at a concrete input with one short data line (2
fields for 3 headers: missing cell becomes empty string) and one long
data line (4 fields for 3 headers: the extra field is dropped). -/
theorem c8_row_zip_witness :
    parseData "a,b,c\nx,y\n1,2,3,4" =
      Outcome.ok
        [JsonValue.obj [("a", JsonValue.str "x"), ("b", JsonValue.str "y"),
          ("c", JsonValue.str "")],
         JsonValue.obj [("a", JsonValue.str "1"), ("b", JsonValue.str "2"),
          ("c", JsonValue.str "3")]] "CSV" ∧
    (∃ kvs, mkRow ["a", "b", "c"] ["x", "y"] = JsonValue.obj kvs ∧
      jsLookup kvs "c" = some (JsonValue.str "")) :=
  ⟨by decide,
    (c8_row_zip "a,b,c\nx,y\n1,2,3,4"
      [JsonValue.obj [("a", JsonValue.str "x"), ("b", JsonValue.str "y"),
        ("c", JsonValue.str "")],
       JsonValue.obj [("a", JsonValue.str "1"), ("b", JsonValue.str "2"),
        ("c", JsonValue.str "3")]] "CSV" (by decide) (by decide)).2.2
      ["a", "b", "c"] ["x", "y"] "c" (by decide) (by decide)⟩

/-- Claim C2, corrected.  Parsing `[{"a":1},{"b":2}]` (braces written as
escapes here) does yield format `JSON` and columns `[a, b]` in that
order, but the records are the RAW parsed objects: the first record is
`(a ↦ 1)` with numeric value and no `b` key at all — not the claimed
`(a ↦ "1", b ↦ "")`.  Missing cells only become empty strings in the
render/export layer. -/
theorem c2_json_example :
    parseData "[\x7b\"a\":1\x7d,\x7b\"b\":2\x7d]" =
      Outcome.ok [JsonValue.obj [("a", JsonValue.num "1")],
        JsonValue.obj [("b", JsonValue.num "2")]] "JSON" ∧
    columnsOf [JsonValue.obj [("a", JsonValue.num "1")],
        JsonValue.obj [("b", JsonValue.num "2")]] = ["a", "b"] := by
  exact ⟨by decide, by decide⟩

/-- Counterexample to C2 as stated: the records returned for
`[{"a":1},{"b":2}]` differ from the claimed
`[(a ↦ "1", b ↦ ""), (a ↦ "", b ↦ "2")]`. -/
theorem c2_counterexample :
    parseData "[\x7b\"a\":1\x7d,\x7b\"b\":2\x7d]" =
      Outcome.ok [JsonValue.obj [("a", JsonValue.num "1")],
        JsonValue.obj [("b", JsonValue.num "2")]] "JSON" ∧
    [JsonValue.obj [("a", JsonValue.num "1")], JsonValue.obj [("b", JsonValue.num "2")]] ≠
      [JsonValue.obj [("a", JsonValue.str "1"), ("b", JsonValue.str "")],
       JsonValue.obj [("a", JsonValue.str ""), ("b", JsonValue.str "2")]] := by
  exact ⟨by decide, by decide⟩

/-- Claim C3, corrected.  As stated the claim is false: a single-line
input that is valid JSON (e.g. `42`) parses successfully (see the
counterexample).  Amended claim, proved here: for every input that is
NOT valid JSON, a single non-blank line, or a header line yielding
fewer than 2 header fields, is rejected as unrecognized. -/
theorem c3_degenerate_unrecognized (s : String)
    (hjson : jsonParse (sanitizedData s) = none) :
    ((tsxLines s).length = 1 → parseData s = Outcome.err unrecognizedMsgTsx) ∧
    (1 < (tsxLines s).length → (tsxHeaders s).length < 2 →
      parseData s = Outcome.err unrecognizedMsgTsx) := by
  constructor
  · intro h1
    have h0 : ¬jsTrim s = "" := by
      intro he
      have hl : tsxLines s = [] := by
        unfold tsxLines sanitizedData
        rw [he]
        decide
      rw [hl] at h1
      exact absurd h1 (by decide)
    simp only [parseData, if_neg h0, hjson]
    rw [if_neg (by omega : ¬1 < (tsxLines s).length)]
  · intro hgt hhead
    have h0 : ¬jsTrim s = "" := by
      intro he
      have hl : tsxLines s = [] := by
        unfold tsxLines sanitizedData
        rw [he]
        decide
      rw [hl] at hgt
      exact absurd hgt (by decide)
    simp only [parseData, if_neg h0, hjson]
    rw [if_pos hgt]
    by_cases hb : 0 < (tsxBest s).2
    · rw [if_pos hb, if_neg (by omega : ¬1 < (tsxHeaders s).length)]
    · rw [if_neg hb]

/-- Witness for C3's amended theorem: `ab` over `cd` has two non-blank
lines, no delimiter occurrences, hence a single header field, and is
rejected. -/
theorem c3_degenerate_unrecognized_witness :
    parseData "ab\ncd" = Outcome.err unrecognizedMsgTsx :=
  (c3_degenerate_unrecognized "ab\ncd" (by decide)).2 (by decide) (by decide)

/-- Counterexample to C3 as stated: `42` is a single non-blank line and
parses successfully as JSON instead of yielding Unrecognized. -/
theorem c3_counterexample :
    (tsxLines "42").length = 1 ∧
    parseData "42" = Outcome.ok [JsonValue.num "42"] "JSON" := by
  exact ⟨by decide, by decide⟩

/-- Claim C7, corrected.  The code has no `NoRowsProduced` failure: a
detected-JSON input whose array is empty (e.g. `[]`) SUCCEEDS with an
empty record list (see counterexample).  Amended claim, proved here:
the JSON path returns success with zero records in that case, and the
delimited path, whenever it succeeds, returns at least one record. -/
theorem c7_zero_rows (s : String) :
    (∀ v, jsonParse (sanitizedData s) = some v → jsToArray v = [] →
      parseData s = Outcome.ok [] "JSON") ∧
    (∀ data label, parseData s = Outcome.ok data label → label ≠ "JSON" → data ≠ []) := by
  constructor
  · intro v hv harr
    have h0 : ¬jsTrim s = "" := by
      intro he
      have hn : jsonParse (sanitizedData s) = none := by
        unfold sanitizedData
        rw [he]
        decide
      rw [hn] at hv
      exact Option.noConfusion hv
    simp only [parseData, if_neg h0, hv, harr]
    rfl
  · intro data label h hl hdempty
    obtain ⟨_, h1, _, _, _, hdata⟩ := parseData_delimited_inv s data label h hl
    have hlen : 0 < (tsxRows s).length := by
      unfold tsxRows
      rw [List.length_map, List.length_take, List.length_drop]
      have hM : MAX_ROWS_DISPLAY = 1000 := rfl
      omega
    rw [hdata] at hdempty
    rw [hdempty] at hlen
    exact absurd hlen (by decide)

/-- Witness for C7's amended theorem: the JSON clause at `[]` and the
delimited clause at a one-row CSV. -/
theorem c7_zero_rows_witness :
    parseData "[]" = Outcome.ok [] "JSON" ∧
    [JsonValue.obj [("a", JsonValue.str "1"), ("b", JsonValue.str "2")]] ≠
      ([] : List JsonValue) :=
  ⟨(c7_zero_rows "[]").1 (JsonValue.arr []) (by decide) (by decide),
   (c7_zero_rows "a,b\n1,2").2
     [JsonValue.obj [("a", JsonValue.str "1"), ("b", JsonValue.str "2")]] "CSV"
     (by decide) (by decide)⟩

/-- Counterexample to C7 as stated: `[]` is detected as JSON, yields
zero records, and parsing SUCCEEDS with an empty record list instead of
failing with a no-rows error. -/
theorem c7_counterexample : parseData "[]" = Outcome.ok [] "JSON" := by decide

theorem detectDelimiter_spec (line : String) :
    (∀ e ∈ delimiters, countChar e line ≤ (detectDelimiter line).2) ∧
    (0 < (detectDelimiter line).2 →
      (detectDelimiter line).1 ∈ delimiters ∧
      countChar (detectDelimiter line).1 line = (detectDelimiter line).2 ∧
      ∀ e ∈ delimiters.takeWhile (fun x => x ≠ (detectDelimiter line).1),
        countChar e line < (detectDelimiter line).2) := by
  simp only [detectDelimiter, delimiters, List.foldl_cons, List.foldl_nil]
  split_ifs with h1 h2 h3 h4 h5 h6 h7 h8 h9 h10 h11 h12 h13 h14 h15 <;>
    simp_all [List.takeWhile] <;> omega

theorem tsxLines_ne_nil_of_blank (s : String) (he : jsTrim s = "") : tsxLines s = [] := by
  unfold tsxLines sanitizedData
  rw [he]
  decide

theorem parseData_err_of_few_headers (s : String)
    (hjson : jsonParse (sanitizedData s) = none)
    (hlen : 1 < (tsxLines s).length)
    (hhead : (tsxHeaders s).length < 2) :
    parseData s = Outcome.err unrecognizedMsgTsx := by
  have h0 : ¬jsTrim s = "" := by
    intro he
    rw [tsxLines_ne_nil_of_blank s he] at hlen
    exact absurd hlen (by decide)
  simp only [parseData, if_neg h0, hjson]
  rw [if_pos hlen]
  by_cases hb : 0 < (tsxBest s).2
  · rw [if_pos hb, if_neg (by omega : ¬1 < (tsxHeaders s).length)]
  · rw [if_neg hb]

/-- Claim C4, confirmed.  On the non-JSON branch with at least two
non-blank lines, the winner of the delimiter sniff over the first
non-blank line has the maximum occurrence count among
comma/tab/pipe/semicolon, every candidate listed before the winner has
a strictly smaller count (ties keep the earlier candidate), and a
winning count of zero makes parseData throw Unrecognized. -/
theorem c4_delimiter_priority (s : String)
    (hjson : jsonParse (sanitizedData s) = none)
    (hlen : 1 < (tsxLines s).length) :
    (∀ e ∈ delimiters, countChar e (tsxLine0 s) ≤ (tsxBest s).2) ∧
    (0 < (tsxBest s).2 →
      (tsxBest s).1 ∈ delimiters ∧
      countChar (tsxBest s).1 (tsxLine0 s) = (tsxBest s).2 ∧
      ∀ e ∈ delimiters.takeWhile (fun x => x ≠ (tsxBest s).1),
        countChar e (tsxLine0 s) < (tsxBest s).2) ∧
    ((tsxBest s).2 = 0 → parseData s = Outcome.err unrecognizedMsgTsx) := by
  have hspec := detectDelimiter_spec (tsxLine0 s)
  refine ⟨hspec.1, hspec.2, ?_⟩
  intro hzero
  have h0 : ¬jsTrim s = "" := by
    intro he
    rw [tsxLines_ne_nil_of_blank s he] at hlen
    exact absurd hlen (by decide)
  simp only [parseData, if_neg h0, hjson]
  rw [if_pos hlen, if_neg (by omega : ¬0 < (tsxBest s).2)]

/-- Witness for C4: on `a;b` over `1;2` the semicolon wins with its own
count, and on the delimiter-free `uv` over `wx` the zero winning count
yields the Unrecognized error. -/
theorem c4_delimiter_priority_witness :
    countChar (tsxBest "a;b\n1;2").1 (tsxLine0 "a;b\n1;2") = (tsxBest "a;b\n1;2").2 ∧
    parseData "uv\nwx" = Outcome.err unrecognizedMsgTsx :=
  ⟨((c4_delimiter_priority "a;b\n1;2" (by decide) (by decide)).2.1 (by decide)).2.1,
   (c4_delimiter_priority "uv\nwx" (by decide) (by decide)).2.2 (by decide)⟩

/-- Claim C5, corrected.  The claim's "one layer of surrounding
MATCHING single- or double-quotes" is wrong: the regex
`^["']|["']$` strips one leading and one trailing quote character
independently — they need not match, and a lone quote at either end is
stripped too (see counterexample).  Amended claim, proved here: header
fields are split by the winning delimiter, trimmed, stripped of one
leading and one trailing quote character (matching or not), empty
results are dropped, and fewer than 2 surviving names is rejected as
Unrecognized. -/
theorem c5_header_cleaning (s : String)
    (hjson : jsonParse (sanitizedData s) = none)
    (hlen : 1 < (tsxLines s).length) :
    (tsxHeaders s = ((splitChar (tsxBest s).1 (tsxLine0 s)).map
        (fun f => stripQuotes (jsTrim f))).filter (fun h => h != "")) ∧
    ((tsxHeaders s).length < 2 → parseData s = Outcome.err unrecognizedMsgTsx) ∧
    (∀ (cs : List Char) (q1 q2 : Char), isQuoteChar q1 → isQuoteChar q2 →
      stripQuotes ⟨q1 :: (cs ++ [q2])⟩ = ⟨cs⟩) ∧
    (∀ (cs : List Char) (q : Char), isQuoteChar q →
      (∀ c, cs.getLast? = some c → ¬isQuoteChar c) →
      stripQuotes ⟨q :: cs⟩ = ⟨cs⟩) := by
  refine ⟨rfl, parseData_err_of_few_headers s hjson hlen, ?_, ?_⟩
  · intro cs q1 q2 hq1 hq2
    unfold stripQuotes
    have hs1 : stripLeadQuote (q1 :: (cs ++ [q2])) = cs ++ [q2] := by
      simp [stripLeadQuote, hq1]
    rw [hs1]
    have hrev : (cs ++ [q2]).reverse = q2 :: cs.reverse := by
      simp
    rw [hrev]
    have hs2 : stripLeadQuote (q2 :: cs.reverse) = cs.reverse := by
      simp [stripLeadQuote, hq2]
    rw [hs2, List.reverse_reverse]
  · intro cs q hq hlast
    unfold stripQuotes
    have hs1 : stripLeadQuote (q :: cs) = cs := by
      simp [stripLeadQuote, hq]
    rw [hs1]
    cases hrev : cs.reverse with
    | nil =>
      have : cs = [] := by simpa using congrArg List.reverse hrev
      rw [this]
      rfl
    | cons c t =>
      have hlastc : cs.getLast? = some c := by
        rw [← List.head?_reverse, hrev]
        rfl
      have hnq : ¬isQuoteChar c = true := hlast c hlastc
      have hs2 : stripLeadQuote (c :: t) = c :: t := by
        simp [stripLeadQuote, hnq]
      rw [hs2, ← hrev, List.reverse_reverse]

/-- Witness for C5's amended theorem: a two-line header-only input with
a single header field is rejected, and the quote stripping clauses at
the mismatched pair DOUBLE-QUOTE x SINGLE-QUOTE. -/
theorem c5_header_cleaning_witness :
    parseData "uw\nxz" = Outcome.err unrecognizedMsgTsx ∧
    stripQuotes ⟨'"' :: (['x'] ++ ['\''])⟩ = ⟨['x']⟩ :=
  ⟨(c5_header_cleaning "uw\nxz" (by decide) (by decide)).2.1 (by decide),
   (c5_header_cleaning "uw\nxz" (by decide) (by decide)).2.2.1 ['x'] '"' '\''
     (by decide) (by decide)⟩

/-- Counterexample to C5 as stated: the header field `"x'` (double
quote, x, single quote) has no matching surrounding pair, so under the
claim it would survive unchanged as a column name; the code strips both
mismatched quotes and produces the column `x`. -/
theorem c5_counterexample :
    cleanField "\"x'" = "x" ∧ ("x" : String) ≠ "\"x'" ∧
    parseData "\"x',y\n1,2" =
      Outcome.ok [JsonValue.obj [("x", JsonValue.str "1"), ("y", JsonValue.str "2")]] "CSV" := by
  exact ⟨by decide, by decide, by decide⟩

/-- Claim C9, confirmed (wall-clock timing modelled abstractly by the
environment's settlement time; per the source, the 30-second
`setTimeout` aborts the fetch, the `AbortError` is rethrown as the
timeout message, `catch` stores it, and `finally` clears
`isProcessing`).  From any state in which a repair may start, a repair
whose call would settle only at or after the 30000 ms deadline leaves
the timeout message in the error state, clears the in-flight flag, and
leaves the state able to start a subsequent repair attempt. -/
theorem c9_timeout_releases_guard (st : AppState) (env : RepairEnv)
    (hcan : canStartRepair st = true)
    (htime : REPAIR_TIMEOUT_MS ≤ env.resolvesAfterMs) :
    (handleAICorrection st env).errorMsg = "Request timed out. Please try again." ∧
    (handleAICorrection st env).isProcessing = false ∧
    canStartRepair (handleAICorrection st env) = true := by
  simp only [canStartRepair, Bool.and_eq_true, bne_iff_ne, ne_eq, Bool.not_eq_true] at hcan
  obtain ⟨⟨⟨herr, hin⟩, hproc⟩, hkey⟩ := hcan
  have hstep : handleAICorrection st env =
      { st with errorMsg := "Request timed out. Please try again.", isProcessing := false } := by
    unfold handleAICorrection
    rw [if_neg hin]
    unfold correctDataWithGemini
    rw [hkey]
    simp only [Bool.not_true, Bool.false_eq_true, if_false]
    rw [if_pos htime]
  rw [hstep]
  refine ⟨rfl, rfl, ?_⟩
  simp [canStartRepair, hin, hkey]

/-- Witness for C9 at a concrete failed-parse state and an environment
whose call would settle exactly at the deadline. -/
theorem c9_timeout_releases_guard_witness :
    (handleAICorrection
        { inputData := "x", parsedData := none, errorMsg := "Parse error", dataType := "",
          isProcessing := false, apiKeyValid := true }
        { resolvesAfterMs := 30000, response := GeminiResponse.noCandidates }).errorMsg =
      "Request timed out. Please try again." ∧
    (handleAICorrection
        { inputData := "x", parsedData := none, errorMsg := "Parse error", dataType := "",
          isProcessing := false, apiKeyValid := true }
        { resolvesAfterMs := 30000, response := GeminiResponse.noCandidates }).isProcessing =
      false ∧
    canStartRepair
        (handleAICorrection
          { inputData := "x", parsedData := none, errorMsg := "Parse error", dataType := "",
            isProcessing := false, apiKeyValid := true }
          { resolvesAfterMs := 30000, response := GeminiResponse.noCandidates }) = true :=
  c9_timeout_releases_guard
    { inputData := "x", parsedData := none, errorMsg := "Parse error", dataType := "",
      isProcessing := false, apiKeyValid := true }
    { resolvesAfterMs := 30000, response := GeminiResponse.noCandidates }
    (by decide) (by decide)


theorem splitCharAux_cons_ne (sep c : Char) (h : ¬c = sep) (acc t : List Char) :
    splitCharAux sep acc (c :: t) = splitCharAux sep (c :: acc) t := by
  simp [splitCharAux, h]

theorem splitCharAux_cons_eq (sep : Char) (acc t : List Char) :
    splitCharAux sep acc (sep :: t) = acc.reverse :: splitCharAux sep [] t := by
  simp [splitCharAux]

theorem splitCharAux_bigChunks (n : Nat) :
    ∀ acc : List Char,
      splitCharAux '\n' acc ((List.replicate n bigLineChunk).flatten) =
        acc.reverse :: List.replicate n ['1', ',', '2'] := by
  induction n with
  | zero => intro acc; rfl
  | succ n ih =>
    intro acc
    rw [show (List.replicate (n + 1) bigLineChunk).flatten =
      '\n' :: '1' :: ',' :: '2' :: (List.replicate n bigLineChunk).flatten from by
        rw [List.replicate_succ]; rfl]
    rw [splitCharAux_cons_eq, splitCharAux_cons_ne _ _ (by decide),
      splitCharAux_cons_ne _ _ (by decide), splitCharAux_cons_ne _ _ (by decide), ih]
    rfl

theorem bigInput_lines : nonBlankLines bigInput = "a,b" :: List.replicate 1001 "1,2" := by
  unfold nonBlankLines splitChar
  have hdata : bigInput.data = 'a' :: ',' :: 'b' :: (List.replicate 1001 bigLineChunk).flatten := rfl
  rw [hdata]
  rw [splitCharAux_cons_ne _ _ (by decide), splitCharAux_cons_ne _ _ (by decide),
    splitCharAux_cons_ne _ _ (by decide), splitCharAux_bigChunks]
  rw [show (['b', ',', 'a'].reverse : List Char) = ['a', ',', 'b'] from rfl]
  rw [List.map_cons, List.map_replicate]
  rw [show ((⟨['a', ',', 'b']⟩ : String) = "a,b") from rfl]
  rw [show ((⟨['1', ',', '2']⟩ : String) = "1,2") from rfl]
  rw [List.filter_cons, if_pos (by decide : ((fun l => jsTrim l != "") "a,b") = true),
    List.filter_replicate, if_pos (by decide : ((fun l => jsTrim l != "") "1,2") = true)]

theorem bigInput_data_cons :
    bigInput.data = 'a' :: ',' :: 'b' :: (List.replicate 1001 bigLineChunk).flatten := rfl

theorem bigInput_decomp :
    bigInput.data = ('a' :: ',' :: 'b' :: (List.replicate 1000 bigLineChunk).flatten) ++ bigLineChunk := by
  rw [bigInput_data_cons]
  rw [show (1001 : Nat) = 1000 + 1 from rfl, List.replicate_succ', List.flatten_append]
  rw [show ([bigLineChunk].flatten : List Char) = bigLineChunk from by
    simp only [List.flatten_cons, List.flatten_nil, List.append_nil]]
  simp only [List.cons_append]

theorem bigInput_trim : jsTrim bigInput = bigInput := by
  unfold jsTrim jsTrimList
  have h1 : bigInput.data.dropWhile isJsWs = bigInput.data := by
    rw [bigInput_data_cons]
    rw [List.dropWhile_cons, if_neg (by decide : ¬isJsWs 'a' = true)]
  rw [h1]
  have h2 : bigInput.data.reverse.dropWhile isJsWs = bigInput.data.reverse := by
    rw [bigInput_decomp, List.reverse_append]
    rw [show (bigLineChunk.reverse : List Char) = ['2', ',', '1', '\n'] from rfl]
    rw [List.cons_append, List.dropWhile_cons, if_neg (by decide : ¬isJsWs '2' = true)]
  rw [h2, List.reverse_reverse]

theorem sanitizeAux_no_lt :
    ∀ (fuel : Nat) (l : List Char), (∀ c ∈ l, ¬c.toLower = '<') → sanitizeAux fuel l = l := by
  intro fuel
  induction fuel with
  | zero => intro l _; rfl
  | succ fuel ih =>
    intro l hl
    cases l with
    | nil => rfl
    | cons c cs =>
      have hc : ¬c.toLower = '<' := hl c (by simp)
      have hlt : ('<' : Char).toLower = '<' := by decide
      have hfalse : startsWithCI scriptOpenChars (c :: cs) = false := by
        simp [startsWithCI, scriptOpenChars, hlt, hc]
      simp only [sanitizeAux, hfalse, Bool.false_and, Bool.false_eq_true, if_false]
      rw [ih cs (fun d hd => hl d (by simp [hd]))]

theorem bigInput_sanitize : sanitizeInput bigInput = bigInput := by
  unfold sanitizeInput
  rw [sanitizeAux_no_lt _ _ ?_]
  intro c hc
  rw [bigInput_data_cons] at hc
  simp only [List.mem_cons, List.mem_flatten] at hc
  rcases hc with rfl | rfl | rfl | ⟨l, hl, hcl⟩
  · decide
  · decide
  · decide
  · rw [List.eq_of_mem_replicate hl] at hcl
    rcases (by simpa [bigLineChunk] using hcl : c = '\n' ∨ c = '1' ∨ c = ',' ∨ c = '2') with
      rfl | rfl | rfl | rfl <;> decide

theorem parseValue_fail_head_a (fuel : Nat) (rest : List Char) :
    parseValue (fuel + 1) ('a' :: rest) = none := rfl

theorem bigInput_jsonParse : jsonParse bigInput = none := by
  unfold jsonParse
  rw [bigInput_data_cons, List.length_cons, List.length_cons, List.length_cons]
  rw [show ∀ m : Nat, m + 1 + 1 + 1 + 2 = m + 4 + 1 from fun m => rfl]
  rw [parseValue_fail_head_a]

theorem bigInput_sanitized : sanitizedData bigInput = bigInput := by
  unfold sanitizedData
  rw [bigInput_trim, bigInput_sanitize]

theorem bigInput_tsxLines : tsxLines bigInput = "a,b" :: List.replicate 1001 "1,2" := by
  unfold tsxLines
  rw [bigInput_sanitized, bigInput_lines]

theorem bigInput_tsxLine0 : tsxLine0 bigInput = "a,b" := by
  unfold tsxLine0
  rw [bigInput_tsxLines]
  rfl

theorem bigInput_best : tsxBest bigInput = (',', 1) := by
  unfold tsxBest
  rw [bigInput_tsxLine0]
  decide

theorem bigInput_headers : tsxHeaders bigInput = ["a", "b"] := by
  unfold tsxHeaders
  rw [bigInput_best, bigInput_tsxLine0]
  decide

theorem bigInput_rows : tsxRows bigInput = List.replicate 1000 bigRow := by
  unfold tsxRows
  rw [bigInput_tsxLines, bigInput_best, bigInput_headers]
  rw [show ("a,b" :: List.replicate 1001 "1,2").drop 1 = List.replicate 1001 "1,2" from rfl]
  rw [List.take_replicate, show (MAX_ROWS_DISPLAY ⊓ 1001 : Nat) = 1000 from by decide,
    List.map_replicate]
  exact congrArg (List.replicate 1000) (by decide)

theorem bigInput_lines_length : (tsxLines bigInput).length = 1002 := by
  rw [bigInput_tsxLines, List.length_cons, List.length_replicate]

/-- Claim C6, confirmed.  On both paths, inputs with more than
`MAX_ROWS_DISPLAY` (1000) elements/data lines normalize to exactly 1000
records: the JSON path returns the first 1000 array elements in order,
and the delimited path maps the first 1000 data lines (taken in order
from the line after the header). -/
theorem c6_truncation (s : String) :
    (∀ v, jsonParse (sanitizedData s) = some v →
      MAX_ROWS_DISPLAY < (jsToArray v).length →
      parseData s = Outcome.ok ((jsToArray v).take MAX_ROWS_DISPLAY) "JSON" ∧
      ((jsToArray v).take MAX_ROWS_DISPLAY).length = MAX_ROWS_DISPLAY) ∧
    (jsonParse (sanitizedData s) = none →
      MAX_ROWS_DISPLAY + 1 < (tsxLines s).length →
      0 < (tsxBest s).2 →
      1 < (tsxHeaders s).length →
      parseData s = Outcome.ok (tsxRows s) (typeMap (tsxBest s).1) ∧
      (tsxRows s).length = MAX_ROWS_DISPLAY ∧
      tsxRows s = (((tsxLines s).drop 1).take MAX_ROWS_DISPLAY).map
        (fun line => mkRow (tsxHeaders s) (rowValues (tsxBest s).1 line))) := by
  constructor
  · intro v hv hlen
    have h0 : ¬jsTrim s = "" := by
      intro he
      have hno : jsonParse (sanitizedData s) = none := by
        unfold sanitizedData
        rw [he]
        decide
      rw [hno] at hv
      exact Option.noConfusion hv
    simp only [parseData, if_neg h0, hv]
    exact ⟨by trivial, by rw [List.length_take]; omega⟩
  · intro hno hlines hbest hheads
    have h0 : ¬jsTrim s = "" := by
      intro he
      rw [tsxLines_ne_nil_of_blank s he] at hlines
      exact absurd hlines (by decide)
    have hM : MAX_ROWS_DISPLAY = 1000 := rfl
    have hlen1 : 1 < (tsxLines s).length := by omega
    have hrows : (tsxRows s).length = MAX_ROWS_DISPLAY := by
      unfold tsxRows
      rw [List.length_map, List.length_take, List.length_drop]
      omega
    simp only [parseData, if_neg h0, hno]
    rw [if_pos hlen1, if_pos hbest, if_pos hheads,
      if_pos (show 0 < (tsxRows s).length by rw [hrows]; decide)]
    exact ⟨rfl, hrows, rfl⟩

/-- Witness for C6 at `bigInput` — a CSV input with 1001 data lines —
whose parse yields exactly 1000 identical records. -/
theorem c6_truncation_witness :
    parseData bigInput = Outcome.ok (List.replicate 1000 bigRow) "CSV" ∧
    (List.replicate 1000 bigRow).length = MAX_ROWS_DISPLAY := by
  obtain ⟨hok, hlen, _⟩ := (c6_truncation bigInput).2
    (by rw [bigInput_sanitized]; exact bigInput_jsonParse)
    (by rw [bigInput_lines_length]; decide)
    (by rw [bigInput_best]; decide)
    (by rw [bigInput_headers]; decide)
  constructor
  · rw [hok, bigInput_rows, bigInput_best]
    rfl
  · rw [← bigInput_rows]
    exact hlen

/-- Claim C10, corrected.  The two parseData implementations are NOT
equivalent (see counterexample): the tsx strips script tags, caps rows
at 1000, and filters out empty header names, while the html does none
of these.  Amended claim, proved here: for inputs outside those three
divergences — already-trimmed text that the sanitizer leaves unchanged,
at most 1000 JSON elements or data lines, and no empty header fields —
both implementations produce the same outcome (same records and format
label, or both null, or both throw). -/
theorem c10_equiv (s : String)
    (Htrim : jsTrim s = s)
    (Hsan : sanitizeInput s = s)
    (Hjson : ∀ v, jsonParse s = some v → (jsToArray v).length ≤ MAX_ROWS_DISPLAY)
    (Hheads : jsonParse s = none → ∀ hfield ∈ htmlHeaders s, hfield ≠ "")
    (Hrows : jsonParse s = none → (htmlLines s).length ≤ MAX_ROWS_DISPLAY + 1) :
    sameOutcome (parseData s) (parseDataHtml s) = true := by
  have hsd : sanitizedData s = s := by
    unfold sanitizedData
    rw [Htrim, Hsan]
  have hlines : tsxLines s = htmlLines s := by
    unfold tsxLines htmlLines
    rw [hsd, Htrim]
  have hl0 : tsxLine0 s = htmlLine0 s := by
    unfold tsxLine0 htmlLine0
    rw [hlines]
  have hb : tsxBest s = htmlBest s := by
    unfold tsxBest htmlBest
    rw [hl0]
  by_cases h0 : jsTrim s = ""
  · simp only [parseData, parseDataHtml, if_pos h0]
    rfl
  · cases hj : jsonParse s with
    | some v =>
      have hj2 : jsonParse (sanitizedData s) = some v := by
        rw [hsd]
        exact hj
      simp only [parseData, parseDataHtml, if_neg h0, hj, hj2]
      rw [List.take_of_length_le (Hjson v hj)]
      simp [sameOutcome]
    | none =>
      have hj2 : jsonParse (sanitizedData s) = none := by
        rw [hsd]
        exact hj
      have hhead_eq : tsxHeaders s = htmlHeaders s := by
        unfold tsxHeaders headerFieldsTsx
        rw [hb, hl0]
        apply List.filter_eq_self.2
        intro a ha
        have hne := Hheads hj a ha
        simpa using hne
      have hrows_eq : tsxRows s = htmlRows s := by
        unfold tsxRows htmlRows
        rw [hlines, hhead_eq, hb]
        rw [List.take_of_length_le ?_]
        rw [List.length_drop]
        have := Hrows hj
        omega
      simp only [parseData, parseDataHtml, if_neg h0, hj, hj2]
      rw [hlines, hb, hhead_eq, hrows_eq]
      by_cases hl1 : 1 < (htmlLines s).length
      · rw [if_pos hl1, if_pos hl1]
        by_cases hb1 : 0 < (htmlBest s).2
        · rw [if_pos hb1, if_pos hb1]
          have hrlen : 0 < (htmlRows s).length := by
            unfold htmlRows
            rw [List.length_map, List.length_drop]
            omega
          by_cases hh1 : 1 < (htmlHeaders s).length
          · rw [if_pos hh1, if_pos hrlen, if_pos (And.intro hrlen hh1)]
            simp [sameOutcome]
          · rw [if_neg hh1, if_neg (fun hand => hh1 hand.2)]
            rfl
        · rw [if_neg hb1, if_neg hb1]
          rfl
      · rw [if_neg hl1, if_neg hl1]
        rfl

/-- Witness for C10's amended theorem at a small common CSV input. -/
theorem c10_equiv_witness :
    sameOutcome (parseData "a,b\n1,2") (parseDataHtml "a,b\n1,2") = true :=
  c10_equiv "a,b\n1,2" (by decide) (by decide)
    (fun v hv => by
      rw [show jsonParse "a,b\n1,2" = none from by decide] at hv
      exact Option.noConfusion hv)
    (fun _ => by decide)
    (fun _ => by decide)

/-- Counterexample to C10 as stated: on `a,,b` over `1,2,3` the tsx
filters out the empty header name and returns two columns, while the
html keeps it and returns three — different record sequences, so the
outcomes differ. -/
theorem c10_counterexample :
    sameOutcome (parseData "a,,b\n1,2,3") (parseDataHtml "a,,b\n1,2,3") = false ∧
    parseData "a,,b\n1,2,3" =
      Outcome.ok [JsonValue.obj [("a", JsonValue.str "1"), ("b", JsonValue.str "2")]] "CSV" ∧
    parseDataHtml "a,,b\n1,2,3" =
      Outcome.ok [JsonValue.obj [("a", JsonValue.str "1"), ("", JsonValue.str "2"),
        ("b", JsonValue.str "3")]] "CSV" := by
  exact ⟨by decide, by decide, by decide⟩
